import Mathlib

/-!
# Verification of `autoky.py`

A shallow embedding in Lean 4 of the keyword-extraction / CSV-parsing /
viewer-filtering logic of the `autoky` utility, together with theorems
settling the behavioural claims about it.

Python string primitives (`str.split`, `str.strip`, `str.lower`,
lexicographic comparison) are modelled by executable functions on
`List Char` so that every definition evaluates inside the kernel.
The Python `str.strip`/`\s` class covers a slightly larger Unicode whitespace
class than `Char.isWhitespace`; on the ASCII data handled here the two
coincide.
-/

namespace Autoky

/-! ## String primitives (models of Python `str` operations) -/

/-- Model of Python `text.split(sep)` for a one-character separator:
splitting the empty string yields `[[]]`, adjacent separators yield
empty fields. -/
def splitOnChar (sep : Char) : List Char → List (List Char)
  | [] => [[]]
  | c :: cs =>
    let r := splitOnChar sep cs
    if c = sep then [] :: r
    else
      match r with
      | h :: t => (c :: h) :: t
      | [] => [[c]]

/-- Model of Python `str.strip()`: drop whitespace from both ends. -/
def trimChars (cs : List Char) : List Char :=
  ((cs.dropWhile Char.isWhitespace).reverse.dropWhile Char.isWhitespace).reverse

/-- Model of Python `str.strip()` on `String`. -/
def strTrim (s : String) : String := ⟨trimChars s.data⟩

/-- Model of Python `str.lower()` (ASCII case folding, as `Char.toLower`). -/
def strLower (s : String) : String := ⟨s.data.map Char.toLower⟩

/-- Lexicographic `≤` on character lists by code point — the order Python
uses to compare strings. -/
def listLeB : List Char → List Char → Bool
  | [], _ => true
  | _ :: _, [] => false
  | a :: as, b :: bs =>
    if a.toNat = b.toNat then listLeB as bs
    else decide (a.toNat < b.toNat)

/-- `lowerLeB a b`: the Python sort-key comparison `a.lower() <= b.lower()`. -/
def lowerLeB (a b : String) : Bool := listLeB (strLower a).data (strLower b).data

/-- The comparison relation used by `list.sort(key=str.lower)`. -/
def lowerLe (a b : String) : Prop := lowerLeB a b = true

instance : DecidableRel lowerLe := fun a b => instDecidableEqBool (lowerLeB a b) true

instance : IsTotal String lowerLe := by
  refine ⟨fun a b => ?_⟩
  show listLeB (strLower a).data (strLower b).data = true ∨
    listLeB (strLower b).data (strLower a).data = true
  generalize (strLower a).data = x
  generalize (strLower b).data = y
  induction x generalizing y with
  | nil => left; rfl
  | cons a as ih =>
    cases y with
    | nil => right; rfl
    | cons b bs =>
      by_cases hab : a.toNat = b.toNat
      · rcases ih bs with h | h
        · left; simp [listLeB, hab, h]
        · right; simp [listLeB, hab.symm, h]
      · rcases Nat.lt_or_ge a.toNat b.toNat with h | h
        · left; simp [listLeB, hab, h]
        · right
          have hba : b.toNat ≠ a.toNat := fun he => hab he.symm
          have : b.toNat < a.toNat := lt_of_le_of_ne h hba
          simp [listLeB, hba, this]

instance : IsTrans String lowerLe := by
  have key : ∀ x y z : List Char, listLeB x y = true → listLeB y z = true →
      listLeB x z = true := by
    intro x
    induction x with
    | nil => intro y z hxy hyz; rfl
    | cons a as ih =>
      intro y z hxy hyz
      cases y with
      | nil => simp [listLeB] at hxy
      | cons b bs =>
        cases z with
        | nil => simp [listLeB] at hyz
        | cons c cs =>
          simp only [listLeB] at hxy hyz ⊢
          by_cases hab : a.toNat = b.toNat
          · by_cases hbc : b.toNat = c.toNat
            · rw [if_pos hab] at hxy
              rw [if_pos hbc] at hyz
              rw [if_pos (hab.trans hbc)]
              exact ih bs cs hxy hyz
            · rw [if_pos hab] at hxy
              rw [if_neg hbc, decide_eq_true_eq] at hyz
              have hac : a.toNat ≠ c.toNat := by omega
              rw [if_neg hac, decide_eq_true_eq]
              omega
          · rw [if_neg hab, decide_eq_true_eq] at hxy
            by_cases hbc : b.toNat = c.toNat
            · have hac : a.toNat ≠ c.toNat := by omega
              rw [if_neg hac, decide_eq_true_eq]
              omega
            · rw [if_neg hbc, decide_eq_true_eq] at hyz
              have hac : a.toNat ≠ c.toNat := by omega
              rw [if_neg hac, decide_eq_true_eq]
              omega
  exact ⟨fun a b c hab hbc => key _ _ _ hab hbc⟩

/-- Substring test on character lists: `startsB n h` iff `n` is an initial
segment of `h`. -/
def startsB : List Char → List Char → Bool
  | [], _ => true
  | _ :: _, [] => false
  | a :: as, b :: bs => a == b && startsB as bs

/-- Model of Python `needle in hay` (substring containment). -/
def infixB (n : List Char) : List Char → Bool
  | [] => startsB n []
  | c :: t => startsB n (c :: t) || infixB n t

/-- Substring containment on `String`s. -/
def substrB (needle hay : String) : Bool := infixB needle.data hay.data

/-! ## First-occurrence deduplication keyed by a string

Both `process_keywords` (Python `seen` set of lowercased keywords) and the
viewer hash de-duplication follow the same pattern: walk the list, keep
an element when its key has not been seen, record the key. -/

/-- Keep the first element of each key class; `seen` holds the keys already
emitted. Mirrors the Python `seen = set(); for x in l: if key(x) not in
seen: seen.add(key(x)); out.append(x)` idiom. -/
def dedupByKeyAux {α : Type} (key : α → String) : List String → List α → List α
  | _, [] => []
  | seen, x :: xs =>
    if key x ∈ seen then dedupByKeyAux key seen xs
    else x :: dedupByKeyAux key (key x :: seen) xs

/-- First-occurrence dedup starting from an empty `seen` set. -/
def dedupByKey {α : Type} (key : α → String) (l : List α) : List α :=
  dedupByKeyAux key [] l

/-! ## Extraction-mode keyword processing (`process_keywords`, autoky.py 645-655) -/

/-- The comma-split, stripped, non-empty parts of a raw keyword text:
Python `[kw.strip() for kw in raw_text.split(",") if kw.strip()]`. -/
def cleanParts (raw : String) : List String :=
  ((splitOnChar ',' raw.data).map (fun cs => strTrim ⟨cs⟩)).filter (fun s => s != "")

/-- Model of `process_keywords(raw_text, sha256_hex)`: case-insensitive
first-occurrence dedup, stable sort by the lowercased keyword (the Python
stable `list.sort(key=str.lower)`, modelled by `insertionSort`, which is
likewise stable), then the hash appended as the final element. -/
def process_keywords (raw sha : String) : List String :=
  let cleaned := dedupByKey strLower (cleanParts raw)
  (List.insertionSort lowerLe cleaned) ++ [sha]

/-! ## CSV parsing (`parse_csv_file`, autoky.py 657-681)

The regex `RANK\s+(\d+)` (IGNORECASE) applied with `re.search` is modelled
by a leftmost scan; `[a-fA-F0-9]{64}` with `re.fullmatch` by a whole-string
check. `\s`/`\d` are modelled by `Char.isWhitespace`/`Char.isDigit`
(ASCII; the Python classes additionally cover some Unicode characters that
never occur in this data). -/

/-- Value of a digit run, as Python `int(...)` of the captured group. -/
def digitsToNat (ds : List Char) : Nat :=
  ds.foldl (fun n c => n * 10 + (c.toNat - 48)) 0

/-- Try to match `RANK\s+(\d+)` (case-insensitive) starting at the head of
the character list; the digit group is maximal (greedy `\d+`). -/
def matchRankAt : List Char → Option Nat
  | c1 :: c2 :: c3 :: c4 :: rest =>
    if (c1 == 'R' || c1 == 'r') && (c2 == 'A' || c2 == 'a') &&
       (c3 == 'N' || c3 == 'n') && (c4 == 'K' || c4 == 'k') then
      let ws := rest.takeWhile Char.isWhitespace
      let tail := rest.dropWhile Char.isWhitespace
      let ds := tail.takeWhile Char.isDigit
      if ws.isEmpty || ds.isEmpty then none else some (digitsToNat ds)
    else none
  | _ => none

/-- Model of `re.search(r"RANK\s+(\d+)", item, re.IGNORECASE)`: the
leftmost match wins. -/
def rankSearch : List Char → Option Nat
  | [] => none
  | c :: cs =>
    match matchRankAt (c :: cs) with
    | some n => some n
    | none => rankSearch cs

/-- `rankSearch` on a `String` item. -/
def rankSearchS (s : String) : Option Nat := rankSearch s.data

/-- One of `[a-fA-F0-9]` — stated on code points to ease arithmetic. -/
def isHexChar (c : Char) : Bool :=
  (48 ≤ c.toNat && c.toNat ≤ 57) || (97 ≤ c.toNat && c.toNat ≤ 102) ||
  (65 ≤ c.toNat && c.toNat ≤ 70)

/-- Model of `re.fullmatch(r"[a-fA-F0-9]{64}", item)`. -/
def isHex64 (s : String) : Bool := s.data.length == 64 && s.data.all isHexChar

/-- The in-memory image record (`ImageData.__init__`). `full_path` starts
as `None`; its later filesystem-dependent resolution is outside the model. -/
structure ImageData where
  filename : String
  keywords : List String
  rank : Nat
  hash_code : String
  full_path : Option String := none
deriving DecidableEq

/-- The stripped, non-empty fields after the path column: Python
`(c.strip() for c in row[1:] if c.strip())`. -/
def cleanItems (rest : List String) : List String :=
  rest.filterMap (fun c => let t := strTrim c; if t = "" then none else some t)

/-- One step of the field scan: a `RANK n` match sets the rank, else a
64-hex token sets the (lowercased) hash, else the field is a keyword. -/
def scanItem (acc : List String × Nat × String) (item : String) :
    List String × Nat × String :=
  match rankSearchS item with
  | some n => (acc.1, n, acc.2.2)
  | none =>
    if isHex64 item then (acc.1, acc.2.1, strLower item)
    else (acc.1 ++ [item], acc.2.1, acc.2.2)

/-- Left-to-right scan of the cleaned fields. -/
def scanItems (acc : List String × Nat × String) : List String → List String × Nat × String
  | [] => acc
  | item :: rest => scanItems (scanItem acc item) rest

/-- Model of the per-row body of `parse_csv_file`. Rows with fewer than two
fields are skipped (`None`). `sha256hex` abstracts `hashlib.sha256`, used
only to synthesize a missing hash from the filename text. -/
def parse_row (sha256hex : String → String) : List String → Option ImageData
  | [] => none
  | [_] => none
  | filename :: rest =>
    let s := scanItems ([], 1, "") (cleanItems rest)
    let h := if s.2.2 = "" then sha256hex filename else s.2.2
    some { filename := filename, keywords := s.1, rank := s.2.1, hash_code := h }

/-- Model of `parse_csv_file` on an already-read list of CSV rows. -/
def parse_csv_file (sha256hex : String → String) (rows : List (List String)) :
    List ImageData :=
  rows.filterMap (parse_row sha256hex)

/-- Stand-in for `hashlib.sha256(...).hexdigest()` in concrete examples. -/
def shaStub : String → String := fun _ => "stubhash"

/-! ## Viewer filtering (`ImageData.matches_keywords` / `matches_rank`,
`ImageViewer._apply_filters`, autoky.py 50-61 and 267-288) -/

/-- `ImageData.matches_keywords(filter_keywords, partial)`: an empty filter
matches everything; in contains mode (`pm = true`) some filter keyword must
occur as a substring of some image keyword, case-insensitively; in exact
mode some filter keyword must equal some image keyword, case-insensitively. -/
def matches_keywords (d : ImageData) (filterKws : List String) (pm : Bool) : Bool :=
  match filterKws with
  | [] => true
  | _ :: _ =>
    if pm then
      filterKws.any (fun k => d.keywords.any (fun kw => substrB (strLower k) (strLower kw)))
    else
      filterKws.any (fun k => d.keywords.any (fun kw => strLower kw == strLower k))

/-- `ImageData.matches_rank(min_rank)`. -/
def matches_rank (d : ImageData) (minRank : Nat) : Bool := minRank ≤ d.rank

/-- The record predicate used inside `_apply_filters`. -/
def passFilter (filterKws : List String) (pm : Bool) (minRank : Nat)
    (d : ImageData) : Bool :=
  matches_keywords d filterKws pm && matches_rank d minRank

/-- The filtering loop of `_apply_filters`: keep passing records whose hash
has not been seen, count passing records whose hash has. -/
def applyFiltersAux (pass : ImageData → Bool) (seen : List String) :
    List ImageData → List ImageData × Nat
  | [] => ([], 0)
  | d :: ds =>
    if pass d then
      if d.hash_code ∈ seen then
        let r := applyFiltersAux pass seen ds
        (r.1, r.2 + 1)
      else
        let r := applyFiltersAux pass (d.hash_code :: seen) ds
        (d :: r.1, r.2)
    else applyFiltersAux pass seen ds

/-- Model of `_apply_filters`: returns (`filtered_images`, `duplicates`). -/
def apply_filters (all : List ImageData) (filterKws : List String) (pm : Bool)
    (minRank : Nat) : List ImageData × Nat :=
  applyFiltersAux (passFilter filterKws pm minRank) [] all

/-! ## Model response text extraction (`extract_text_from_response`,
autoky.py 594-613)

JSON values are modelled by `JVal`; `dict.get` by association-list lookup.
When the `choices` entry is a non-empty list whose first element is not an
object, Python evaluates `first.get("content")` on a non-dict and raises
`AttributeError`; this is modelled by `Except.error`. -/

/-- JSON values as delivered by `json.loads`. -/
inductive JVal where
  | jstr (s : String)
  | jnum (n : Int)
  | jbool (b : Bool)
  | jnull
  | jarr (xs : List JVal)
  | jobj (fields : List (String × JVal))

/-- `dict.get(key)`: first binding wins, `none` when absent. -/
def jget : List (String × JVal) → String → Option JVal
  | [], _ => none
  | (k, v) :: fs, key => if k = key then some v else jget fs key

/-- The `isinstance(x, str)` pattern: the string payload when the value is
present and a string. -/
def asString : Option JVal → Option String
  | some (.jstr s) => some s
  | _ => none

/-- `JVal.isObj`: `isinstance(x, dict)`. -/
def JVal.isObj : JVal → Bool
  | .jobj _ => true
  | _ => false

/-- The `for k in ("text", "output", "content")` fallback loop. -/
def fallbackKeys (fs : List (String × JVal)) : Option String :=
  match asString (jget fs "text") with
  | some s => some s
  | none =>
    match asString (jget fs "output") with
    | some s => some s
    | none => asString (jget fs "content")

/-- The code from the `choices` check onwards (runs when neither the
top-level `response` nor `message.content` produced a string). -/
def extractAfterMessage (fs : List (String × JVal)) : Except String (Option String) :=
  match jget fs "choices" with
  | some (.jarr (first :: _)) =>
    match first with
    | .jobj ffs =>
      match jget ffs "message" with
      | some (.jobj mfs) =>
        match asString (jget mfs "content") with
        | some s => .ok (some s)
        | none =>
          match asString (jget ffs "content") with
          | some s => .ok (some s)
          | none => .ok (fallbackKeys fs)
      | _ =>
        match asString (jget ffs "content") with
        | some s => .ok (some s)
        | none => .ok (fallbackKeys fs)
    | _ => .error "AttributeError"
  | _ => .ok (fallbackKeys fs)

/-- Model of `extract_text_from_response`. `.ok none` models returning
`None`; `.error` models the uncaught `AttributeError` described above. -/
def extract_text_from_response (j : JVal) : Except String (Option String) :=
  match j with
  | .jobj fs =>
    match asString (jget fs "response") with
    | some s => .ok (some s)
    | none =>
      match jget fs "message" with
      | some (.jobj mfs) =>
        match asString (jget mfs "content") with
        | some s => .ok (some s)
        | none => extractAfterMessage fs
      | _ => extractAfterMessage fs
  | _ => .ok none

/-! ## Per-file extraction run (`run_for_file`, autoky.py 683-728)

The interaction with the filesystem and network is abstracted into a
`RunOutcome`: which of the mutually exclusive branches of the exception handling of `run_for_file` the file hits. `sha` abstracts `file_sha256_hex(path)`. -/

/-- Outcome of the I/O performed for one file. -/
inductive RunOutcome where
  /-- `open`/`read`/`b64encode` raised (the first `try` block). -/
  | readError (msg : String)
  /-- `do_request` raised `HTTPError` with this status code. -/
  | httpError (code : Nat)
  /-- `do_request` raised `URLError` with this reason (unreachable endpoint). -/
  | urlError (reason : String)
  /-- any other exception inside the second `try` (bad JSON, hashing, ...). -/
  | otherError (msg : String)
  /-- the HTTP request succeeded and the body parsed to this JSON value. -/
  | response (body : JVal)

/-- What `run_for_file` emits for one file: a CSV row via `csv_writer`, or
only a message on standard error (no row at all). -/
inductive RowAction where
  | stderrOnly (msg : String)
  | row (fields : List String)
deriving DecidableEq

/-- The fields of the emitted CSV row (empty when no row is written). -/
def RowAction.fields : RowAction → List String
  | .stderrOnly _ => []
  | .row fs => fs

/-- `true` iff a CSV row is written. -/
def RowAction.isRow : RowAction → Bool
  | .stderrOnly _ => false
  | .row _ => true

/-- Model of `run_for_file(path, args, csv_writer)` as a function of the
resolved path, the SHA-256 hex digest, and the I/O outcome. -/
def run_for_file (fullPath sha : String) (out : RunOutcome) : RowAction :=
  match out with
  | .readError m => .stderrOnly (fullPath ++ ": Failed to read or encode image: " ++ m)
  | .httpError code => .row [fullPath, "HTTP Error " ++ toString code]
  | .urlError reason => .row [fullPath, "Connection Error: " ++ reason]
  | .otherError m => .row [fullPath, "Error: " ++ m]
  | .response body =>
    match extract_text_from_response body with
    | .error m => .row [fullPath, "Error: " ++ m]
    | .ok none => .row [fullPath, "[No text extracted]"]
    | .ok (some txt) =>
      if txt = "" then .row [fullPath, "[No text extracted]"]
      else .row (fullPath :: process_keywords txt sha)

/-- The extraction batch loop of `main`: every file is processed, one
`RowAction` each; no outcome aborts the loop. -/
def run_batch (jobs : List (String × String × RunOutcome)) : List RowAction :=
  jobs.map (fun j => run_for_file j.1 j.2.1 j.2.2)

/-! ## Exit codes (`main`, autoky.py 732-781)

`main` is modelled as a function of the already-classified command-line
inputs: the parsed rows of each `.txt` file, the non-`.txt` arguments, the
availability of Pillow, and the images resolved by
`expand_wildcards_and_folders`. -/

/-- The process exit code of `main` (0 = fell off the end of `main`). -/
def mainExitCode (sha256hex : String → String) (txtRows : List (List (List String)))
    (otherPaths : List String) (pil : Bool) (images : List String) : Nat :=
  if !txtRows.isEmpty && otherPaths.isEmpty then
    let allData := (txtRows.map (parse_csv_file sha256hex)).flatten
    if allData.isEmpty then 1
    else if !pil then 1
    else 0
  else if images.isEmpty then 1 else 0

/-! ## Spec-side description of the text-extraction fallback order

`extract_text_spec` is written from the words of the claim (amended with
the error case): a fixed priority list of candidate sources, first string
wins; a non-empty `choices` list whose first entry is not an object makes
the lookup fail instead of falling through. It is compared with the
code-derived `extract_text_from_response` in the C9 theorem. -/

/-- First string produced by a priority list of candidates. -/
def firstString (cands : List (Option String)) : Option String :=
  (cands.filterMap id).head?

/-- Candidate: the top-level `response` string. -/
def respTop (fs : List (String × JVal)) : Option String := asString (jget fs "response")

/-- Candidate: `message.content`. -/
def respMessage (fs : List (String × JVal)) : Option String :=
  match jget fs "message" with
  | some (.jobj mfs) => asString (jget mfs "content")
  | _ => none

/-- Candidate: `choices[0].message.content`, for an object entry. -/
def choiceMessage (first : JVal) : Option String :=
  match first with
  | .jobj ffs =>
    match jget ffs "message" with
    | some (.jobj mfs) => asString (jget mfs "content")
    | _ => none
  | _ => none

/-- Candidate: `choices[0].content`, for an object entry. -/
def choiceContent (first : JVal) : Option String :=
  match first with
  | .jobj ffs => asString (jget ffs "content")
  | _ => none

/-- Candidate: a fallback key (`text`, `output` or `content`). -/
def keyString (fs : List (String × JVal)) (k : String) : Option String :=
  asString (jget fs k)

/-- The description given by the claim of the extraction order, amended with the
failure case for a non-object first `choices` entry. -/
def extract_text_spec (j : JVal) : Except String (Option String) :=
  match j with
  | .jobj fs =>
    match jget fs "choices" with
    | some (.jarr (first :: _)) =>
      if first.isObj then
        .ok (firstString [respTop fs, respMessage fs, choiceMessage first,
                          choiceContent first, keyString fs "text",
                          keyString fs "output", keyString fs "content"])
      else
        match firstString [respTop fs, respMessage fs] with
        | some s => .ok (some s)
        | none => .error "AttributeError"
    | _ =>
      .ok (firstString [respTop fs, respMessage fs, keyString fs "text",
                        keyString fs "output", keyString fs "content"])
  | _ => .ok none

/-! ## Concrete inputs used by the claim theorems -/

/-- The hash of the C1 example image (`deadbeef...`, 64 hex chars). -/
def c1hash : String := "deadbeefdeadbeefdeadbeefdeadbeefdeadbeefdeadbeefdeadbeefdeadbeef"

/-- The C1 example model response `"blue, sky, RANK 8, photo"`. -/
def c1resp : JVal := .jobj [("response", .jstr "blue, sky, RANK 8, photo")]

/-- A record whose only keyword is `dog`. -/
def c2img : ImageData :=
  { filename := "a.jpg", keywords := ["dog"], rank := 1, hash_code := "h1" }

/-- The 64-hex hash token of the C3 example row. -/
def c3hex : String := "aaaabbbbccccddddeeeeffff0000111122223333444455556666777788889999"

/-- The C3 example CSV row. -/
def c3row : List String := ["photo1.jpg", "cat", "Cat", "RANK 7", "dog", c3hex]

/-- A 64-hex token written in upper case. -/
def c6hexUpper : String := "AAAABBBBCCCCDDDDEEEEFFFF0000111122223333444455556666777788889999"

/-- The same 64-hex token in lower case. -/
def c6hexLower : String := "aaaabbbbccccddddeeeeffff0000111122223333444455556666777788889999"

/-- A second, distinct 64-hex token (for a row with several hex fields). -/
def c6hexW : String := "ffffeeeeddddccccbbbbaaaa9999888877776666555544443333222211110000"

/-- The record parsed from the C6 witness row. -/
def c6data : ImageData :=
  { filename := "p.jpg", keywords := ["cat"], rank := 3, hash_code := c6hexLower }

/-- Two records sharing a hash (C7 witness). -/
def c7a : ImageData := { filename := "a.jpg", keywords := ["x"], rank := 5, hash_code := "h1" }

/-- Second record with the same hash as `c7a`. -/
def c7b : ImageData := { filename := "b.jpg", keywords := ["y"], rank := 5, hash_code := "h1" }

/-- A response whose `choices` list starts with a bare string, plus a
`text` fallback key. -/
def c9bad : JVal := .jobj [("choices", .jarr [.jstr "x"]), ("text", .jstr "y")]

/-! ## Helper lemmas -/

theorem dedupByKeyAux_sublist {α : Type} (key : α → String) (seen : List String)
    (l : List α) : (dedupByKeyAux key seen l).Sublist l := by
  induction l generalizing seen with
  | nil => simp [dedupByKeyAux]
  | cons x xs ih =>
    simp only [dedupByKeyAux]
    by_cases h : key x ∈ seen
    · rw [if_pos h]
      exact (ih seen).trans (List.sublist_cons_self x xs)
    · rw [if_neg h]
      exact (ih (key x :: seen)).cons₂ x

theorem mem_of_mem_dedupByKeyAux {α : Type} {key : α → String} {seen : List String}
    {l : List α} {x : α} (hx : x ∈ dedupByKeyAux key seen l) : x ∈ l :=
  (dedupByKeyAux_sublist key seen l).mem hx

theorem key_notin_of_mem_dedupByKeyAux {α : Type} {key : α → String} {seen : List String}
    {l : List α} {x : α} (hx : x ∈ dedupByKeyAux key seen l) : key x ∉ seen := by
  induction l generalizing seen with
  | nil => simp [dedupByKeyAux] at hx
  | cons y ys ih =>
    simp only [dedupByKeyAux] at hx
    by_cases h : key y ∈ seen
    · rw [if_pos h] at hx
      exact ih hx
    · rw [if_neg h] at hx
      rcases List.mem_cons.mp hx with rfl | hx
      · exact h
      · have := ih hx
        exact fun hc => this (List.mem_cons_of_mem _ hc)

theorem nodup_keys_dedupByKeyAux {α : Type} (key : α → String) (seen : List String)
    (l : List α) : ((dedupByKeyAux key seen l).map key).Nodup := by
  induction l generalizing seen with
  | nil => simp [dedupByKeyAux]
  | cons y ys ih =>
    simp only [dedupByKeyAux]
    by_cases h : key y ∈ seen
    · rw [if_pos h]
      exact ih seen
    · rw [if_neg h]
      simp only [List.map_cons, List.nodup_cons]
      refine ⟨?_, ih (key y :: seen)⟩
      intro hc
      rcases List.mem_map.mp hc with ⟨x, hx, hkx⟩
      exact key_notin_of_mem_dedupByKeyAux hx (hkx ▸ List.mem_cons_self _ _)

theorem covers_dedupByKeyAux {α : Type} (key : α → String) (seen : List String)
    (l : List α) {x : α} (hx : x ∈ l) :
    key x ∈ seen ∨ ∃ y ∈ dedupByKeyAux key seen l, key y = key x := by
  induction l generalizing seen with
  | nil => simp at hx
  | cons z zs ih =>
    simp only [dedupByKeyAux]
    rcases List.mem_cons.mp hx with rfl | hx
    · by_cases h : key x ∈ seen
      · exact Or.inl h
      · right
        rw [if_neg h]
        exact ⟨x, List.mem_cons_self _ _, rfl⟩
    · by_cases h : key z ∈ seen
      · rw [if_pos h]
        exact ih seen hx
      · rw [if_neg h]
        rcases ih (key z :: seen) hx with hmem | ⟨y, hy, hky⟩
        · rcases List.mem_cons.mp hmem with he | hs
          · exact Or.inr ⟨z, List.mem_cons_self _ _, he.symm⟩
          · exact Or.inl hs
        · exact Or.inr ⟨y, List.mem_cons_of_mem _ hy, hky⟩

theorem find_of_mem_dedupByKeyAux {α : Type} {key : α → String} {seen : List String}
    {l : List α} {x : α} (hx : x ∈ dedupByKeyAux key seen l) :
    key x ∈ seen ∨ l.find? (fun y => key y == key x) = some x := by
  induction l generalizing seen with
  | nil => simp [dedupByKeyAux] at hx
  | cons z zs ih =>
    simp only [dedupByKeyAux] at hx
    by_cases h : key z ∈ seen
    · rw [if_pos h] at hx
      rcases ih hx with hs | hf
      · exact Or.inl hs
      · by_cases he : key z = key x
        · exact Or.inl (he ▸ h)
        · right
          rw [List.find?_cons_of_neg _ (by simpa using he)]
          exact hf
    · rw [if_neg h] at hx
      rcases List.mem_cons.mp hx with rfl | hx
      · right
        rw [List.find?_cons_of_pos _ (by simp)]
      · have hne : key x ≠ key z := by
          intro he
          exact key_notin_of_mem_dedupByKeyAux hx (he ▸ List.mem_cons_self _ _)
        rcases ih hx with hs | hf
        · rcases List.mem_cons.mp hs with he | hs
          · exact absurd he hne
          · exact Or.inl hs
        · right
          rw [List.find?_cons_of_neg _ (by simpa using fun he => hne he.symm)]
          exact hf

/-- The length of a first-occurrence dedup is the number of distinct keys. -/
theorem dedupByKey_length {α : Type} (key : α → String) (l : List α) :
    (dedupByKey key l).length = (l.map key).toFinset.card := by
  have hnd : ((dedupByKey key l).map key).Nodup := nodup_keys_dedupByKeyAux key [] l
  have hset : ((dedupByKey key l).map key).toFinset = (l.map key).toFinset := by
    ext k
    simp only [List.mem_toFinset, List.mem_map]
    constructor
    · rintro ⟨x, hx, rfl⟩
      exact ⟨x, mem_of_mem_dedupByKeyAux hx, rfl⟩
    · rintro ⟨x, hx, rfl⟩
      rcases covers_dedupByKeyAux key [] l hx with hs | ⟨y, hy, hky⟩
      · simp at hs
      · exact ⟨y, hy, hky⟩
  calc (dedupByKey key l).length
      = ((dedupByKey key l).map key).length := (List.length_map _ _).symm
    _ = ((dedupByKey key l).map key).toFinset.card := (List.toFinset_card_of_nodup hnd).symm
    _ = (l.map key).toFinset.card := by rw [hset]

/-- Monotonicity: a subset of the records can only have fewer distinct keys. -/
theorem dedupByKey_length_mono {α : Type} (key : α → String) {s t : List α}
    (h : s ⊆ t) : (dedupByKey key s).length ≤ (dedupByKey key t).length := by
  rw [dedupByKey_length, dedupByKey_length]
  exact Finset.card_le_card (fun k hk => by
    simp only [List.mem_toFinset] at hk ⊢
    exact List.map_subset key h hk)

/-- The filtered list is the hash-keyed first-occurrence dedup of the
passing records. -/
theorem applyFiltersAux_fst (pass : ImageData → Bool) (seen : List String)
    (l : List ImageData) :
    (applyFiltersAux pass seen l).1 =
      dedupByKeyAux ImageData.hash_code seen (l.filter pass) := by
  induction l generalizing seen with
  | nil => simp [applyFiltersAux, dedupByKeyAux]
  | cons d ds ih =>
    simp only [applyFiltersAux, List.filter_cons]
    cases hp : pass d with
    | false => simpa using ih seen
    | true =>
      simp only [if_pos rfl, dedupByKeyAux]
      by_cases hs : d.hash_code ∈ seen
      · rw [if_pos hs, if_pos hs]
        exact ih seen
      · rw [if_neg hs, if_neg hs]
        simp [ih (d.hash_code :: seen)]

/-- Duplicates counter + filtered length = number of passing records, i.e.
the counter is exactly the number of passing records removed. -/
theorem applyFiltersAux_count (pass : ImageData → Bool) (seen : List String)
    (l : List ImageData) :
    (applyFiltersAux pass seen l).2 + (applyFiltersAux pass seen l).1.length =
      (l.filter pass).length := by
  induction l generalizing seen with
  | nil => simp [applyFiltersAux]
  | cons d ds ih =>
    simp only [applyFiltersAux, List.filter_cons]
    cases hp : pass d with
    | false => simpa using ih seen
    | true =>
      simp only [if_pos rfl, if_true]
      by_cases hs : d.hash_code ∈ seen
      · rw [if_pos hs]
        have := ih seen
        simp only [List.length_cons]
        omega
      · rw [if_neg hs]
        have := ih (d.hash_code :: seen)
        simp only [List.length_cons]
        omega

theorem firstString_some (s : String) (cs : List (Option String)) :
    firstString (some s :: cs) = some s := by
  simp [firstString]

theorem firstString_none (cs : List (Option String)) :
    firstString (none :: cs) = firstString cs := by
  simp [firstString]

theorem fallbackKeys_eq_firstString (fs : List (String × JVal)) :
    fallbackKeys fs =
      firstString [keyString fs "text", keyString fs "output", keyString fs "content"] := by
  unfold fallbackKeys keyString
  rcases asString (jget fs "text") with _ | s1
  · rcases asString (jget fs "output") with _ | s2
    · rcases asString (jget fs "content") with _ | s3 <;> simp [firstString]
    · simp [firstString]
  · simp [firstString]

theorem extractAfterMessage_eq (fs : List (String × JVal)) :
    extractAfterMessage fs =
      match jget fs "choices" with
      | some (.jarr (first :: _)) =>
        if first.isObj then
          .ok (firstString [choiceMessage first, choiceContent first, keyString fs "text",
                            keyString fs "output", keyString fs "content"])
        else .error "AttributeError"
      | _ => .ok (firstString [keyString fs "text", keyString fs "output",
                               keyString fs "content"]) := by
  unfold extractAfterMessage
  rcases hc : jget fs "choices" with _ | v
  · simp [fallbackKeys_eq_firstString]
  · cases v
    case jarr xs =>
      cases xs with
      | nil => simp [fallbackKeys_eq_firstString]
      | cons first rest =>
        cases first
        case jobj ffs =>
          rcases hm : jget ffs "message" with _ | mv
          · rcases hcc : asString (jget ffs "content") with _ | s2 <;>
              simp [JVal.isObj, choiceMessage, choiceContent, hm, hcc,
                    fallbackKeys_eq_firstString, firstString_none, firstString_some]
          · cases mv
            case jobj mfs =>
              rcases hms : asString (jget mfs "content") with _ | s
              · rcases hcc : asString (jget ffs "content") with _ | s2 <;>
                  simp [JVal.isObj, choiceMessage, choiceContent, hm, hms, hcc,
                        fallbackKeys_eq_firstString, firstString_none, firstString_some]
              · simp [JVal.isObj, choiceMessage, choiceContent, hm, hms,
                      fallbackKeys_eq_firstString, firstString_none, firstString_some]
            all_goals
              rcases hcc : asString (jget ffs "content") with _ | s2 <;>
                simp [JVal.isObj, choiceMessage, choiceContent, hm, hcc,
                      fallbackKeys_eq_firstString, firstString_none, firstString_some]
        all_goals simp [JVal.isObj]
    all_goals simp [fallbackKeys_eq_firstString]

theorem extract_text_spec_of_found (fs : List (String × JVal)) (s : String)
    (h : firstString [respTop fs, respMessage fs] = some s) :
    extract_text_spec (.jobj fs) = .ok (some s) := by
  unfold extract_text_spec
  rcases h1 : respTop fs with _ | s1
  · rw [h1, firstString_none] at h
    have h2 : respMessage fs = some s := by
      rcases h2 : respMessage fs with _ | s2
      · rw [h2] at h
        simp [firstString] at h
      · rw [h2, firstString_some] at h
        exact h
    rcases hc : jget fs "choices" with _ | v
    · simp [hc, h1, h2, firstString_none, firstString_some]
    · cases v
      case jarr xs =>
        cases xs with
        | nil => simp [hc, h1, h2, firstString_none, firstString_some]
        | cons first rest =>
          cases hobj : first.isObj <;>
            simp [hc, hobj, h1, h2, firstString_none, firstString_some]
      all_goals simp [hc, h1, h2, firstString_none, firstString_some]
  · rw [h1, firstString_some] at h
    have hs : s1 = s := Option.some.inj h
    subst hs
    rcases hc : jget fs "choices" with _ | v
    · simp [hc, h1, firstString_some]
    · cases v
      case jarr xs =>
        cases xs with
        | nil => simp [hc, h1, firstString_some]
        | cons first rest =>
          cases hobj : first.isObj <;> simp [hc, hobj, h1, firstString_some]
      all_goals simp [hc, h1, firstString_some]

theorem extract_text_spec_of_notfound (fs : List (String × JVal))
    (h1 : respTop fs = none) (h2 : respMessage fs = none) :
    extract_text_spec (.jobj fs) =
      match jget fs "choices" with
      | some (.jarr (first :: _)) =>
        if first.isObj then
          .ok (firstString [choiceMessage first, choiceContent first, keyString fs "text",
                            keyString fs "output", keyString fs "content"])
        else .error "AttributeError"
      | _ => .ok (firstString [keyString fs "text", keyString fs "output",
                               keyString fs "content"]) := by
  unfold extract_text_spec
  rcases hc : jget fs "choices" with _ | v
  · simp [hc, h1, h2, firstString_none]
  · cases v
    case jarr xs =>
      cases xs with
      | nil => simp [hc, h1, h2, firstString_none]
      | cons first rest =>
        cases hobj : first.isObj <;>
          simp [hc, hobj, h1, h2, firstString_none, firstString]
    all_goals simp [hc, h1, h2, firstString_none]

theorem extract_text_eq_spec (j : JVal) :
    extract_text_from_response j = extract_text_spec j := by
  cases j
  case jobj fs =>
    rcases hr : asString (jget fs "response") with _ | s
    · have hrt : respTop fs = none := by simp [respTop, hr]
      rcases hm : jget fs "message" with _ | mv
      · have hrm : respMessage fs = none := by simp [respMessage, hm]
        simp only [extract_text_from_response, hr, hm]
        rw [extractAfterMessage_eq, extract_text_spec_of_notfound fs hrt hrm]
      · cases mv
        case jobj mfs =>
          rcases hms : asString (jget mfs "content") with _ | s
          · have hrm : respMessage fs = none := by simp [respMessage, hm, hms]
            simp only [extract_text_from_response, hr, hm, hms]
            rw [extractAfterMessage_eq, extract_text_spec_of_notfound fs hrt hrm]
          · have hrm : respMessage fs = some s := by simp [respMessage, hm, hms]
            simp only [extract_text_from_response, hr, hm, hms]
            rw [extract_text_spec_of_found fs s
              (by rw [hrt, firstString_none, hrm, firstString_some])]
        all_goals
          have hrm : respMessage fs = none := by simp [respMessage, hm]
          simp only [extract_text_from_response, hr, hm]
          rw [extractAfterMessage_eq, extract_text_spec_of_notfound fs hrt hrm]
    · have hrt : respTop fs = some s := by simp [respTop, hr]
      simp only [extract_text_from_response, hr]
      rw [extract_text_spec_of_found fs s (by rw [hrt, firstString_some])]
  all_goals rfl

/-! ## Characterisation of the CSV field scan -/

theorem scanItems_kws (items : List String) (k0 : List String) (r0 : Nat) (h0 : String) :
    (scanItems (k0, r0, h0) items).1 =
      k0 ++ items.filter (fun it => (rankSearchS it).isNone && !isHex64 it) := by
  induction items generalizing k0 r0 h0 with
  | nil => simp [scanItems]
  | cons item rest ih =>
    simp only [scanItems, scanItem, List.filter_cons]
    rcases hr : rankSearchS item with _ | n
    · by_cases hh : isHex64 item
      · simp [hr, hh, ih]
      · simp [hr, hh, ih, List.append_assoc]
    · simp [hr, ih]

theorem scanItems_rank (items : List String) (k0 : List String) (r0 : Nat) (h0 : String) :
    (scanItems (k0, r0, h0) items).2.1 = (items.filterMap rankSearchS).getLastD r0 := by
  induction items generalizing k0 r0 h0 with
  | nil => simp [scanItems]
  | cons item rest ih =>
    simp only [scanItems]
    rcases hr : rankSearchS item with _ | n
    · rw [List.filterMap_cons_none hr]
      by_cases hh : isHex64 item
      · have hs : scanItem (k0, r0, h0) item = (k0, r0, strLower item) := by
          simp [scanItem, hr, hh]
        rw [hs, ih]
      · have hs : scanItem (k0, r0, h0) item = (k0 ++ [item], r0, h0) := by
          simp [scanItem, hr, hh]
        rw [hs, ih]
    · rw [List.filterMap_cons_some hr]
      have hs : scanItem (k0, r0, h0) item = (k0, n, h0) := by simp [scanItem, hr]
      rw [hs, ih, List.getLastD_cons]

theorem scanItems_hash (items : List String) (k0 : List String) (r0 : Nat) (h0 : String) :
    (scanItems (k0, r0, h0) items).2.2 =
      ((items.filter (fun it => (rankSearchS it).isNone && isHex64 it)).map strLower).getLastD h0 := by
  induction items generalizing k0 r0 h0 with
  | nil => simp [scanItems]
  | cons item rest ih =>
    simp only [scanItems]
    rcases hr : rankSearchS item with _ | n
    · by_cases hh : isHex64 item
      · have hs : scanItem (k0, r0, h0) item = (k0, r0, strLower item) := by
          simp [scanItem, hr, hh]
        rw [List.filter_cons_of_pos (by simp [hr, hh])]
        rw [hs, ih, List.map_cons, List.getLastD_cons]
      · have hs : scanItem (k0, r0, h0) item = (k0 ++ [item], r0, h0) := by
          simp [scanItem, hr, hh]
        rw [List.filter_cons_of_neg (by simp [hr, hh])]
        rw [hs, ih]
    · have hs : scanItem (k0, r0, h0) item = (k0, n, h0) := by simp [scanItem, hr]
      rw [List.filter_cons_of_neg (by simp [hr])]
      rw [hs, ih]

/-- A 64-hex token contains no `R`/`r`, hence never matches the rank regex. -/
theorem matchRankAt_none_of_head (c : Char) (t : List Char)
    (h : (c == 'R' || c == 'r') = false) : matchRankAt (c :: t) = none := by
  rcases t with _ | ⟨c2, _ | ⟨c3, _ | ⟨c4, rest⟩⟩⟩ <;> simp [matchRankAt, h]

theorem rankSearch_of_hexChars (cs : List Char)
    (h : ∀ c ∈ cs, isHexChar c = true) : rankSearch cs = none := by
  induction cs with
  | nil => rfl
  | cons c rest ih =>
    have hc := h c (List.mem_cons_self _ _)
    simp only [isHexChar, Bool.or_eq_true, Bool.and_eq_true, decide_eq_true_eq] at hc
    have hRne : c ≠ 'R' := by
      rintro rfl
      exact absurd hc (by decide)
    have hrne : c ≠ 'r' := by
      rintro rfl
      exact absurd hc (by decide)
    have hbe : (c == 'R' || c == 'r') = false := by
      simp [hRne, hrne]
    simp only [rankSearch, matchRankAt_none_of_head c rest hbe]
    exact ih (fun x hx => h x (List.mem_cons_of_mem _ hx))

theorem rankSearchS_of_isHex64 (s : String) (h : isHex64 s = true) :
    rankSearchS s = none := by
  unfold isHex64 at h
  rw [Bool.and_eq_true] at h
  exact rankSearch_of_hexChars s.data (List.all_eq_true.mp h.2)

theorem filter_hexKeep_eq (items : List String) :
    items.filter (fun it => (rankSearchS it).isNone && isHex64 it) =
      items.filter (fun it => isHex64 it) := by
  refine List.filter_congr (fun it _ => ?_)
  cases hh : isHex64 it
  · simp
  · simp [rankSearchS_of_isHex64 it hh]

/-! ## Filter-predicate implications (for monotonicity) -/

theorem filter_subset_filter (p q : ImageData → Bool)
    (h : ∀ d, p d = true → q d = true) (l : List ImageData) :
    l.filter p ⊆ l.filter q := by
  intro x hx
  rw [List.mem_filter] at hx ⊢
  exact ⟨hx.1, h x hx.2⟩

theorem dedupByKeyAux_empty_seen {α : Type} (key : α → String) (l : List α) :
    dedupByKeyAux key [] l = dedupByKey key l := rfl

theorem apply_filters_length_mono (p q : ImageData → Bool)
    (h : ∀ d, p d = true → q d = true) (all : List ImageData) :
    (applyFiltersAux p [] all).1.length ≤ (applyFiltersAux q [] all).1.length := by
  rw [applyFiltersAux_fst, applyFiltersAux_fst, dedupByKeyAux_empty_seen,
      dedupByKeyAux_empty_seen]
  exact dedupByKey_length_mono ImageData.hash_code (filter_subset_filter p q h all)

theorem passFilter_rank_imp (kws : List String) (pm : Bool) {r1 r2 : Nat}
    (hr : r1 ≤ r2) (d : ImageData) :
    passFilter kws pm r2 d = true → passFilter kws pm r1 d = true := by
  simp only [passFilter, matches_rank, Bool.and_eq_true, decide_eq_true_eq]
  rintro ⟨h1, h2⟩
  exact ⟨h1, le_trans hr h2⟩

theorem matches_keywords_append (d : ImageData) (kws : List String) (k : String)
    (pm : Bool) (h : kws ≠ []) :
    matches_keywords d kws pm = true → matches_keywords d (kws ++ [k]) pm = true := by
  cases kws with
  | nil => exact absurd rfl h
  | cons a as =>
    simp only [matches_keywords, List.cons_append]
    cases pm <;>
      · simp only [if_pos, if_neg, Bool.false_eq_true, ite_false, ite_true]
        intro h1
        rw [show a :: (as ++ [k]) = (a :: as) ++ [k] from rfl, List.any_append, h1]
        rfl

theorem passFilter_append_imp (kws : List String) (k : String) (pm : Bool) (r : Nat)
    (h : kws ≠ []) (d : ImageData) :
    passFilter kws pm r d = true → passFilter (kws ++ [k]) pm r d = true := by
  simp only [passFilter, Bool.and_eq_true]
  rintro ⟨h1, h2⟩
  exact ⟨matches_keywords_append d kws k pm h h1, h2⟩

theorem passFilter_empty_imp (kws : List String) (pm : Bool) (r : Nat) (d : ImageData) :
    passFilter kws pm r d = true → passFilter [] pm r d = true := by
  simp only [passFilter, Bool.and_eq_true]
  rintro ⟨_, h2⟩
  exact ⟨rfl, h2⟩

/-! ## Claim theorems -/

/-- C1 counterexample: for the model response `"blue, sky, RANK 8, photo"`
the emitted output row still contains the token `RANK 8` — the
keyword-processing step does not remove the rank token. -/
theorem c1_counterexample :
    "RANK 8" ∈ (run_for_file "img.jpg" c1hash (.response c1resp)).fields := by decide

/-- C1 (amended): for the model response `"blue, sky, RANK 8, photo"` and a
file hashing to `deadbeef...`, the output row is the path followed by the
case-insensitively sorted deduplicated keywords with the `RANK 8` token
kept as an ordinary keyword, and the hash appended exactly once as the
final element. -/
theorem c1_thm :
    run_for_file "img.jpg" c1hash (.response c1resp) =
      .row ["img.jpg", "blue", "photo", "RANK 8", "sky", c1hash] ∧
    ((run_for_file "img.jpg" c1hash (.response c1resp)).fields).count c1hash = 1 ∧
    ((run_for_file "img.jpg" c1hash (.response c1resp)).fields).getLast? = some c1hash := by
  refine ⟨by decide, by decide, by decide⟩

/-- C2 counterexample: in exact mode, adding the filter term `dog` to the
filter `cat` grows the filtered set from 0 to 1 records — keyword filter
terms are disjunctive, so adding one can increase the filtered set. -/
theorem c2_counterexample :
    (apply_filters [c2img] ["cat"] false 1).1.length = 0 ∧
    (apply_filters [c2img] ["cat", "dog"] false 1).1.length = 1 := by decide

/-- C2 (amended): raising the minimum-rank threshold never increases the
filtered set size; moving from an empty keyword filter to any filter never
increases it; but because filter terms are disjunctive, adding one more
term to a non-empty filter never DECREASES the filtered set size. -/
theorem c2_thm :
    (∀ (all : List ImageData) (kws : List String) (pm : Bool) (r1 r2 : Nat), r1 ≤ r2 →
       (apply_filters all kws pm r2).1.length ≤ (apply_filters all kws pm r1).1.length) ∧
    (∀ (all : List ImageData) (kws : List String) (pm : Bool) (r : Nat),
       (apply_filters all kws pm r).1.length ≤ (apply_filters all [] pm r).1.length) ∧
    (∀ (all : List ImageData) (kws : List String) (k : String) (pm : Bool) (r : Nat),
       kws ≠ [] →
       (apply_filters all kws pm r).1.length ≤
         (apply_filters all (kws ++ [k]) pm r).1.length) := by
  refine ⟨?_, ?_, ?_⟩
  · intro all kws pm r1 r2 hr
    exact apply_filters_length_mono _ _ (passFilter_rank_imp kws pm hr) all
  · intro all kws pm r
    exact apply_filters_length_mono _ _ (passFilter_empty_imp kws pm r) all
  · intro all kws k pm r hne
    exact apply_filters_length_mono _ _ (passFilter_append_imp kws k pm r hne) all

/-- C2 witness: rank monotonicity instantiated at a concrete record set. -/
theorem c2_witness :
    (apply_filters [c2img] ["dog"] false 2).1.length ≤
      (apply_filters [c2img] ["dog"] false 1).1.length :=
  c2_thm.1 [c2img] ["dog"] false 1 2 (by decide)

/-- C3 counterexample: the row `photo1.jpg,cat,Cat,RANK 7,dog,<64-hex>`
parses to the keyword list `["cat", "Cat", "dog"]` — CSV parsing neither
deduplicates nor sorts, so the list is not `["cat", "dog"]`. -/
theorem c3_counterexample :
    (parse_row shaStub c3row).map ImageData.keywords = some ["cat", "Cat", "dog"] ∧
    (parse_row shaStub c3row).map ImageData.keywords ≠ some ["cat", "dog"] := by decide

/-- C3 (amended): the row `photo1.jpg,cat,Cat,RANK 7,dog,<64-hex>` yields a
record with the keywords `["cat", "Cat", "dog"]` in original order (no
dedup or sort at parse time), rank 7, and the 64-hex token as hash. -/
theorem c3_thm :
    parse_row shaStub c3row =
      some { filename := "photo1.jpg", keywords := ["cat", "Cat", "dog"], rank := 7,
             hash_code := c3hex } := by decide

/-- C4 counterexample: a file whose read/encode fails produces only a
standard-error message and no CSV output row at all. -/
theorem c4_counterexample :
    run_for_file "p.jpg" "h" (.readError "boom") =
      .stderrOnly ("p.jpg" ++ ": Failed to read or encode image: " ++ "boom") ∧
    (run_for_file "p.jpg" "h" (.readError "boom")).isRow = false := by
  refine ⟨rfl, rfl⟩

/-- C4 (amended): read/encode failures are reported on standard error and
produce no CSV row (the file is skipped); HTTP errors, connection errors
and unexpected exceptions each yield a single diagnostic CSV row — in
particular an unreachable endpoint yields `path,Connection Error: <reason>`
— and the batch processes every file regardless of outcome. -/
theorem c4_thm (p sha m reason : String) (code : Nat)
    (jobs : List (String × String × RunOutcome)) :
    run_for_file p sha (.readError m) =
      .stderrOnly (p ++ ": Failed to read or encode image: " ++ m) ∧
    run_for_file p sha (.httpError code) = .row [p, "HTTP Error " ++ toString code] ∧
    run_for_file p sha (.urlError reason) = .row [p, "Connection Error: " ++ reason] ∧
    run_for_file p sha (.otherError m) = .row [p, "Error: " ++ m] ∧
    (run_batch jobs).length = jobs.length :=
  ⟨rfl, rfl, rfl, rfl, by simp [run_batch]⟩

/-- C4 witness: the connection-error row at a concrete path and reason. -/
theorem c4_witness :
    run_for_file "p.jpg" "h" (.urlError "refused") =
      .row ["p.jpg", "Connection Error: " ++ "refused"] :=
  (c4_thm "p.jpg" "h" "m" "refused" 0 []).2.2.1

/-- C5: `process_keywords` ends in the supplied hash, its keyword prefix is
sorted case-insensitively, every kept keyword is the first occurrence of
its case-insensitive class in the cleaned input, every input keyword class
is represented, and no two kept keywords share a lower-cased form. -/
theorem c5_thm (raw sha : String) :
    (process_keywords raw sha).getLast? = some sha ∧
    List.Sorted lowerLe ((process_keywords raw sha).dropLast) ∧
    (∀ x ∈ (process_keywords raw sha).dropLast,
       (cleanParts raw).find? (fun y => strLower y == strLower x) = some x) ∧
    (∀ y ∈ cleanParts raw, ∃ x ∈ (process_keywords raw sha).dropLast,
       strLower x = strLower y) ∧
    ((process_keywords raw sha).dropLast.map strLower).Nodup := by
  have hdl : (process_keywords raw sha).dropLast
      = List.insertionSort lowerLe (dedupByKey strLower (cleanParts raw)) := by
    unfold process_keywords
    exact List.dropLast_concat
  have hperm : (List.insertionSort lowerLe (dedupByKey strLower (cleanParts raw))).Perm
      (dedupByKey strLower (cleanParts raw)) := List.perm_insertionSort _ _
  refine ⟨?_, ?_, ?_, ?_, ?_⟩
  · unfold process_keywords
    exact List.getLast?_concat _
  · rw [hdl]
    exact List.sorted_insertionSort lowerLe _
  · intro x hx
    rw [hdl] at hx
    have hxd : x ∈ dedupByKey strLower (cleanParts raw) := hperm.mem_iff.mp hx
    rcases find_of_mem_dedupByKeyAux hxd with hs | hf
    · simp at hs
    · exact hf
  · intro y hy
    rcases covers_dedupByKeyAux strLower [] (cleanParts raw) hy with hs | ⟨x, hx, hk⟩
    · simp at hs
    · exact ⟨x, by rw [hdl]; exact hperm.mem_iff.mpr hx, hk⟩
  · rw [hdl]
    exact (hperm.map strLower).nodup_iff.mpr (nodup_keys_dedupByKeyAux strLower [] _)

/-- C5 witness: the hash ends the processed list for a concrete input. -/
theorem c5_witness :
    (process_keywords "b, B, a" "hh").getLast? = some "hh" :=
  (c5_thm "b, B, a" "hh").1

/-- C6 counterexample: a row carrying two 64-hex fields, the second written
in upper case. Neither field is stored verbatim as the hash of the record:
the first hex field is discarded (a later one overwrites it) and even the
last one is stored lower-cased, so no field equals the stored hash. -/
theorem c6_counterexample :
    (parse_row shaStub ["p.jpg", c6hexW, c6hexUpper]).map ImageData.hash_code =
      some c6hexLower ∧
    c6hexLower ≠ c6hexUpper ∧
    c6hexLower ≠ c6hexW := by decide

/-- C6 (amended): in any parsed row, every 64-hex field and every field
containing a `RANK <int>` token is excluded from the keywords; the LAST
64-hex field is stored lower-cased as the hash of the record; the last
`RANK` token gives its rank; and the rank defaults to 1 when no `RANK`
token is present. -/
theorem c6_thm (sha256hex : String → String) (path : String) (fields : List String)
    (d : ImageData) (hd : parse_row sha256hex (path :: fields) = some d) :
    (∀ item ∈ cleanItems fields, isHex64 item = true → item ∉ d.keywords) ∧
    (∀ item ∈ cleanItems fields, (rankSearchS item).isSome = true → item ∉ d.keywords) ∧
    (∀ tok, ((cleanItems fields).filter (fun it => isHex64 it)).getLast? = some tok →
       d.hash_code = strLower tok) ∧
    (∀ n, ((cleanItems fields).filterMap rankSearchS).getLast? = some n → d.rank = n) ∧
    ((cleanItems fields).filterMap rankSearchS = [] → d.rank = 1) := by
  cases fields with
  | nil => exact absurd hd (by simp [parse_row])
  | cons f fs =>
    rw [show parse_row sha256hex (path :: f :: fs) = some
        { filename := path,
          keywords := (scanItems ([], 1, "") (cleanItems (f :: fs))).1,
          rank := (scanItems ([], 1, "") (cleanItems (f :: fs))).2.1,
          hash_code := if (scanItems ([], 1, "") (cleanItems (f :: fs))).2.2 = ""
                       then sha256hex path
                       else (scanItems ([], 1, "") (cleanItems (f :: fs))).2.2 }
      from rfl] at hd
    have hde := Option.some.inj hd
    subst hde
    refine ⟨?_, ?_, ?_, ?_, ?_⟩
    · intro item hmem hhex
      dsimp only
      rw [scanItems_kws, List.nil_append, List.mem_filter]
      rintro ⟨-, hpred⟩
      simp [hhex] at hpred
    · intro item hmem hsome
      dsimp only
      rw [scanItems_kws, List.nil_append, List.mem_filter]
      rintro ⟨-, hpred⟩
      rw [Bool.and_eq_true] at hpred
      rcases hpred with ⟨h1, -⟩
      rw [Option.isNone_iff_eq_none] at h1
      rw [h1] at hsome
      exact absurd hsome (by decide)
    · intro tok hlast
      dsimp only
      rw [scanItems_hash, filter_hexKeep_eq]
      have htok : isHex64 tok = true := by
        have hm : tok ∈ (cleanItems (f :: fs)).filter (fun it => isHex64 it) :=
          List.mem_of_mem_getLast? hlast
        exact (List.mem_filter.mp hm).2
      have hne : strLower tok ≠ "" := by
        intro he
        have hdata : tok.data.map Char.toLower = [] := congrArg String.data he
        have hnil : tok.data = [] := List.map_eq_nil_iff.mp hdata
        unfold isHex64 at htok
        rw [Bool.and_eq_true] at htok
        have h64 : (tok.data.length == 64) = true := htok.1
        rw [hnil] at h64
        exact absurd h64 (by decide)
      rw [List.getLastD_eq_getLast?, List.getLast?_map, hlast]
      show (if strLower tok = "" then sha256hex path else strLower tok) = strLower tok
      rw [if_neg hne]
    · intro n hlast
      dsimp only
      rw [scanItems_rank, List.getLastD_eq_getLast?, hlast]
      rfl
    · intro hfm
      dsimp only
      rw [scanItems_rank, hfm]
      rfl

/-- C6 witness: a concrete row exercising the hash clause. -/
theorem c6_witness : c6data.hash_code = strLower c6hexLower :=
  (c6_thm shaStub "p.jpg" ["cat", "RANK 3", c6hexLower] c6data (by decide)).2.2.1
    c6hexLower (by decide)

/-- C7: the filtered list is a sublist of the records (original order
preserved), its hashes are pairwise distinct, the hash of every passing record
is represented, each survivor is the first passing record with its hash,
and the duplicates counter is exactly the number of passing records
removed. -/
theorem c7_thm (all : List ImageData) (kws : List String) (pm : Bool) (r : Nat) :
    List.Sublist (apply_filters all kws pm r).1 all ∧
    ((apply_filters all kws pm r).1.map ImageData.hash_code).Nodup ∧
    (∀ d ∈ all.filter (passFilter kws pm r), ∃ e ∈ (apply_filters all kws pm r).1,
       e.hash_code = d.hash_code) ∧
    (∀ e ∈ (apply_filters all kws pm r).1,
       (all.filter (passFilter kws pm r)).find?
         (fun d => d.hash_code == e.hash_code) = some e) ∧
    (apply_filters all kws pm r).2 + (apply_filters all kws pm r).1.length =
      (all.filter (passFilter kws pm r)).length := by
  have hfst : (apply_filters all kws pm r).1
      = dedupByKeyAux ImageData.hash_code [] (all.filter (passFilter kws pm r)) :=
    applyFiltersAux_fst _ [] all
  refine ⟨?_, ?_, ?_, ?_, ?_⟩
  · rw [hfst]
    exact (dedupByKeyAux_sublist _ _ _).trans (List.filter_sublist all)
  · rw [hfst]
    exact nodup_keys_dedupByKeyAux _ _ _
  · intro d hd
    rcases covers_dedupByKeyAux ImageData.hash_code [] _ hd with hs | ⟨e, he, hke⟩
    · simp at hs
    · exact ⟨e, by rw [hfst]; exact he, hke⟩
  · intro e he
    rw [hfst] at he
    rcases find_of_mem_dedupByKeyAux he with hs | hf
    · simp at hs
    · exact hf
  · exact applyFiltersAux_count _ [] all

/-- C7 witness: the duplicate-counter identity at a concrete record set. -/
theorem c7_witness :
    (apply_filters [c7a, c7b] [] false 1).2 +
      (apply_filters [c7a, c7b] [] false 1).1.length =
      ([c7a, c7b].filter (passFilter [] false 1)).length :=
  (c7_thm [c7a, c7b] [] false 1).2.2.2.2

/-- C8 counterexample: viewer mode with records present but Pillow missing
exits with code 1, not 0. -/
theorem c8_counterexample :
    mainExitCode shaStub [[["p.jpg", "kw"]]] [] false [] = 1 ∧
    (([[["p.jpg", "kw"]]].map (parse_csv_file shaStub)).flatten).isEmpty = false := by
  refine ⟨rfl, rfl⟩

/-- C8 (amended): the exit code is always 0 or 1, and it is 1 exactly when
viewer mode resolves no CSV records or Pillow is unavailable, or when
extraction mode resolves no images. -/
theorem c8_thm (sha256hex : String → String) (txtRows : List (List (List String)))
    (other : List String) (pil : Bool) (imgs : List String) :
    (mainExitCode sha256hex txtRows other pil imgs = 0 ∨
     mainExitCode sha256hex txtRows other pil imgs = 1) ∧
    (mainExitCode sha256hex txtRows other pil imgs = 1 ↔
      (if !txtRows.isEmpty && other.isEmpty then
        ((txtRows.map (parse_csv_file sha256hex)).flatten.isEmpty || !pil) = true
      else imgs.isEmpty = true)) := by
  simp only [mainExitCode]
  by_cases h1 : (!txtRows.isEmpty && other.isEmpty) = true
  · rw [if_pos h1, if_pos h1]
    by_cases h2 : ((txtRows.map (parse_csv_file sha256hex)).flatten).isEmpty = true
    · rw [if_pos h2]
      exact ⟨Or.inr rfl, by simp [h2]⟩
    · rw [if_neg h2]
      by_cases h3 : (!pil) = true
      · rw [if_pos h3]
        exact ⟨Or.inr rfl, by simp [h3]⟩
      · rw [if_neg h3]
        refine ⟨Or.inl rfl, ?_⟩
        constructor
        · intro h
          exact absurd h (by omega)
        · intro h
          rw [Bool.or_eq_true] at h
          rcases h with h | h
          · exact absurd h h2
          · exact absurd h h3
  · rw [if_neg h1, if_neg h1]
    by_cases h4 : imgs.isEmpty = true
    · rw [if_pos h4]
      exact ⟨Or.inr rfl, by simp [h4]⟩
    · rw [if_neg h4]
      refine ⟨Or.inl rfl, ?_⟩
      constructor
      · intro h
        exact absurd h (by omega)
      · intro h
        exact absurd h h4

/-- C8 witness: extraction mode with images resolved is 0 or 1. -/
theorem c8_witness :
    mainExitCode shaStub [] ["a.jpg"] true ["a.jpg"] = 0 ∨
    mainExitCode shaStub [] ["a.jpg"] true ["a.jpg"] = 1 :=
  (c8_thm shaStub [] ["a.jpg"] true ["a.jpg"]).1

/-- C9 counterexample: for `{"choices": ["x"], "text": "y"}` the extractor
raises (modelled as `.error`), rather than returning the `text` fallback or
no text. -/
theorem c9_counterexample :
    extract_text_from_response c9bad = .error "AttributeError" ∧
    extract_text_from_response c9bad ≠ .ok (some "y") ∧
    extract_text_from_response c9bad ≠ .ok none :=
  ⟨rfl, fun h => Except.noConfusion h, fun h => Except.noConfusion h⟩

/-- C9 (amended): text extraction follows the fixed fallback order
(`response`; `message.content`; `choices[0].message.content` then
`choices[0].content`; then `text`, `output`, `content`), first string wins
and otherwise no text — except that a non-empty `choices` list whose first
entry is not an object raises an `AttributeError` instead of falling
through. -/
theorem c9_thm (j : JVal) : extract_text_from_response j = extract_text_spec j :=
  extract_text_eq_spec j

/-- C9 witness: the refinement at a concrete response shape. -/
theorem c9_witness :
    extract_text_from_response (JVal.jobj [("response", JVal.jstr "hi")]) =
      extract_text_spec (JVal.jobj [("response", JVal.jstr "hi")]) :=
  c9_thm (JVal.jobj [("response", JVal.jstr "hi")])

/-- C10: a row with fewer than two fields contributes no record and does
not disturb the parsing of the surrounding rows. -/
theorem c10_thm (sha256hex : String → String) (rows1 rows2 : List (List String))
    (short : List String) (h : short.length < 2) :
    parse_csv_file sha256hex (rows1 ++ short :: rows2) =
      parse_csv_file sha256hex (rows1 ++ rows2) := by
  have hnone : parse_row sha256hex short = none := by
    rcases short with _ | ⟨a, _ | ⟨b, t⟩⟩
    · rfl
    · rfl
    · simp at h
      omega
  unfold parse_csv_file
  rw [List.filterMap_append, List.filterMap_append, List.filterMap_cons_none hnone]

/-- C10 witness: a one-field row dropped from between two real rows. -/
theorem c10_witness :
    parse_csv_file shaStub ([["a.jpg", "k"]] ++ ["only"] :: [["b.jpg", "m"]]) =
      parse_csv_file shaStub ([["a.jpg", "k"]] ++ [["b.jpg", "m"]]) :=
  c10_thm shaStub [["a.jpg", "k"]] [["b.jpg", "m"]] ["only"] (by decide)

end Autoky
